import Mathlib

/-!
Verification development for the medical-records repository: a shallow
embedding of the rule-based FHIR extraction pipeline
(`src/extractors/fhir_regex.py`, with the date-normalization variant of
`src/extractors/agentic.py`) and of the field-path regression harness
(`src/validators/run-regression-tests.py`), together with theorems that
settle the frozen claims about them.

Modeling conventions:
* Python strings are lists of characters (`PyStr`); the ASCII fragment of
  the Python regex character classes is modeled (all concrete inputs in
  the repository are ASCII).
* Python numbers parsed by `float` are modeled as exact rationals; all
  concrete values appearing in the claims (210.0, 3.5, ...) are exactly
  representable, so no rounding behavior is observable.
* Python exceptions are an explicit `Except` channel: `float` on an
  unparseable string raises `ValueError`, dictionary lookup raises
  `KeyError`, sequence indexing raises `IndexError`.
* File input/output, `subprocess`, and the external FHIR validator are
  collaborator boundaries: functions take the file contents / process
  outcomes as arguments.
-/

set_option maxRecDepth 4096

namespace MedRec

/-- Python strings, as lists of characters. -/
abbrev PyStr := List Char

/-- Python exceptions that the modeled code can raise or catch. -/
inductive PyErr where
  | valueError
  | keyError
  | indexError
  | typeError
  | fileNotFoundError
  | calledProcessError
deriving DecidableEq, Repr

/-- ASCII model of Python whitespace (the regex class backslash-s). -/
def isPySpace (c : Char) : Bool :=
  c = ' ' || c = '\t' || c = '\n' || c = '\r' || c = '\x0b' || c = '\x0c'

/-- ASCII decimal digit (the regex class backslash-d). -/
def isDigitCh (c : Char) : Bool := '0' ≤ c && c ≤ '9'

/-- ASCII letter (the regex class [A-Za-z]). -/
def isAlphaCh (c : Char) : Bool := ('A' ≤ c && c ≤ 'Z') || ('a' ≤ c && c ≤ 'z')

/-- The regex class [:\s]. -/
def isColonSpace (c : Char) : Bool := c = ':' || isPySpace c

/-- The regex class [A-Za-z\s.] used by the patient-name pattern. -/
def isNameChar (c : Char) : Bool := isAlphaCh c || isPySpace c || c = '.'

/-- The regex class [\d.] used by the lab-value patterns. -/
def isDigitDot (c : Char) : Bool := isDigitCh c || c = '.'

/-- The regex class [^0-9] used by the lab-name pattern. -/
def isNotDigit (c : Char) : Bool := !(isDigitCh c)

/-- The regex class [MF] used by the age/sex pattern. -/
def isMF (c : Char) : Bool := c = 'M' || c = 'F'

/-- `startsWithList needle hay`: does `hay` start with `needle`? -/
def startsWithList : PyStr → PyStr → Bool
  | [], _ => true
  | _ :: _, [] => false
  | c :: cs, d :: ds => c = d && startsWithList cs ds

/-- Python `c in s` for a single character. -/
def containsChar (c : Char) : PyStr → Bool
  | [] => false
  | d :: ds => c = d || containsChar c ds

/-- Python `needle in hay` substring containment. -/
def containsSub (needle : PyStr) : PyStr → Bool
  | [] => startsWithList needle []
  | d :: ds => startsWithList needle (d :: ds) || containsSub needle ds

/-- Python `str.lower()` (ASCII). -/
def pyLower (s : PyStr) : PyStr := s.map Char.toLower

/-- Python `str.strip()`: remove leading and trailing whitespace. -/
def pyStrip (s : PyStr) : PyStr :=
  ((s.dropWhile isPySpace).reverse.dropWhile isPySpace).reverse

/-- Numeric value of a string of decimal digits (Python `int` on digits). -/
def natOfDigits (s : PyStr) : Nat :=
  s.foldl (fun a c => a * 10 + (c.toNat - 48)) 0

/-- Python `str.split(sep)` for a one-character separator: splits on every
occurrence of `sep`, keeping empty parts (so `"".split(sep) = [""]`). -/
def pySplit (sep : Char) : PyStr → List PyStr
  | [] => [[]]
  | c :: cs =>
    if c = sep then [] :: pySplit sep cs
    else
      match pySplit sep cs with
      | t :: ts => (c :: t) :: ts
      | [] => [[c]]

/-- Python `str.zfill(w)`: pad on the left with zeros to width `w`,
keeping a leading sign in place. -/
def pyZfill (w : Nat) (s : PyStr) : PyStr :=
  if s.length ≥ w then s
  else
    match s with
    | c :: rest =>
      if c = '+' || c = '-' then c :: (List.replicate (w - s.length) '0' ++ rest)
      else List.replicate (w - s.length) '0' ++ s
    | [] => List.replicate w '0'

/-- Python `float()` restricted to strings over digits and dots (the only
strings the pipeline ever feeds it, captured by the class [\d.]+): defined
iff there is at least one digit and at most one dot; the value is the exact
decimal. `none` models a raised `ValueError`. -/
def pyFloat (s : PyStr) : Option ℚ :=
  if s.all isDigitDot && s.any isDigitCh && s.count '.' ≤ 1 then
    match pySplit '.' s with
    | [ip] => some (mkRat (natOfDigits ip) 1)
    | [ip, fp] =>
      some (mkRat (natOfDigits ip * 10 ^ fp.length + natOfDigits fp) (10 ^ fp.length))
    | _ => none
  else none

/-! ### A small backtracking regex engine

The source patterns only ever quantify single-character classes, so
quantifiers here take a character predicate; this keeps the engine
structurally recursive while reproducing Python `re` backtracking order
(leftmost start position, greedy/lazy priority, first alternative first).
-/

/-- Regex abstract syntax, covering exactly the constructs used by the
patterns in `fhir_regex.py`. -/
inductive RE where
  /-- literal string -/
  | lit (s : PyStr)
  /-- single character of a class -/
  | cls (p : Char → Bool)
  /-- greedy plus over a class -/
  | plusG (p : Char → Bool)
  /-- lazy plus over a class (`+?`) -/
  | plusL (p : Char → Bool)
  /-- greedy star over a class -/
  | starG (p : Char → Bool)
  /-- optional single character (`c?`, greedy) -/
  | optC (c : Char)
  /-- exactly `n` characters of a class (`{n}`) -/
  | rep (p : Char → Bool) (n : Nat)
  /-- concatenation -/
  | seq (a b : RE)
  /-- alternation (first alternative preferred) -/
  | alt (a b : RE)
  /-- the anchor `$` (end of string, or just before a final newline) -/
  | eos
  /-- numbered capturing group -/
  | grp (n : Nat) (r : RE)

/-- Captured groups: group number paired with the captured text. -/
abbrev Caps := List (Nat × PyStr)

/-- Length of the longest prefix of `s` whose characters all satisfy `p`. -/
def runLen (p : Char → Bool) : PyStr → Nat
  | [] => 0
  | c :: cs => if p c then runLen p cs + 1 else 0

/-- `[m, m-1, ..., 1]`: greedy repetition counts. -/
def descCounts (m : Nat) : List Nat := (List.range m).map (fun i => m - i)

/-- `[1, 2, ..., m]`: lazy repetition counts. -/
def ascCounts (m : Nat) : List Nat := (List.range m).map (fun i => i + 1)

/-- Combine the results of the first part of a concatenation with the
matcher for the second part, concatenating captures. -/
def seqComb (ra : List (PyStr × Caps)) (f : PyStr → List (PyStr × Caps)) :
    List (PyStr × Caps) :=
  match ra with
  | [] => []
  | rc :: rest => ((f rc.1).map (fun rc2 => (rc2.1, rc.2 ++ rc2.2))) ++ seqComb rest f

/-- Run a regex at the start of `inp`, producing every possible
(remaining input, captures) pair in Python backtracking priority order. -/
def mrun : RE → PyStr → List (PyStr × Caps)
  | .lit s, inp =>
    if startsWithList s inp then [(inp.drop s.length, [])] else []
  | .cls p, inp =>
    match inp with
    | [] => []
    | c :: rest => if p c then [(rest, [])] else []
  | .plusG p, inp => (descCounts (runLen p inp)).map (fun k => (inp.drop k, []))
  | .plusL p, inp => (ascCounts (runLen p inp)).map (fun k => (inp.drop k, []))
  | .starG p, inp =>
    ((descCounts (runLen p inp)).map (fun k => (inp.drop k, []))) ++ [(inp, [])]
  | .optC c, inp =>
    (match inp with
     | c2 :: rest => if c2 = c then [(rest, [])] else []
     | [] => []) ++ [(inp, [])]
  | .rep p n, inp => if n ≤ runLen p inp then [(inp.drop n, [])] else []
  | .seq a b, inp => seqComb (mrun a inp) (fun rem => mrun b rem)
  | .alt a b, inp => mrun a inp ++ mrun b inp
  | .eos, inp =>
    match inp with
    | [] => [([], [])]
    | [c] => if c = '\n' then [([c], [])] else []
    | _ => []
  | .grp n r, inp =>
    (mrun r inp).map (fun rc => (rc.1, rc.2 ++ [(n, inp.take (inp.length - rc.1.length))]))

/-- Python `re.search`: try each start position left to right and return
the captures of the first (highest-priority) match, if any. -/
def research (r : RE) : PyStr → Option Caps
  | [] =>
    match mrun r [] with
    | rc :: _ => some rc.2
    | [] => none
  | c :: rest =>
    match mrun r (c :: rest) with
    | rc :: _ => some rc.2
    | [] => research r rest

/-- `match.group(n)` lookup in the captured groups. -/
def capLookup (caps : Caps) (n : Nat) : Option PyStr :=
  match caps with
  | [] => none
  | (m, s) :: rest => if m = n then some s else capLookup rest n

/-- The capture-group numbers syntactically occurring in a regex. -/
def groupNums : RE → List Nat
  | .lit _ | .cls _ | .plusG _ | .plusL _ | .starG _ | .optC _ | .rep _ _ | .eos => []
  | .seq a b | .alt a b => groupNums a ++ groupNums b
  | .grp n r => n :: groupNums r

/-! ### The patterns of `extract_fhir_bundle_regex` (src/extractors/fhir_regex.py) -/

/-- `Patient Name[:\s]+([A-Za-z\s\.]+?)(?:\s+Age|$)` -/
def patientNameRE : RE :=
  .seq (.lit "Patient Name".data)
    (.seq (.plusG isColonSpace)
      (.seq (.grp 1 (.plusL isNameChar))
        (.alt (.seq (.plusG isPySpace) (.lit "Age".data)) .eos)))

/-- `Age\s*/\s*Sex[:\s]+(\d+)([MF])` -/
def ageSexRE : RE :=
  .seq (.lit "Age".data)
    (.seq (.starG isPySpace)
      (.seq (.lit "/".data)
        (.seq (.starG isPySpace)
          (.seq (.lit "Sex".data)
            (.seq (.plusG isColonSpace)
              (.seq (.grp 1 (.plusG isDigitCh)) (.grp 2 (.cls isMF))))))))

/-- `(VIGNASH[^0-9]*LABORATORY[^0-9]*)` -/
def labNameRE : RE :=
  .grp 1 (.seq (.lit "VIGNASH".data)
    (.seq (.starG isNotDigit)
      (.seq (.lit "LABORATORY".data) (.starG isNotDigit))))

/-- `Reported Date[:\s]+(\d{2}/\d{2}/\d{4})` -/
def reportDateRE : RE :=
  .seq (.lit "Reported Date".data)
    (.seq (.plusG isColonSpace)
      (.grp 1 (.seq (.rep isDigitCh 2)
        (.seq (.lit "/".data)
          (.seq (.rep isDigitCh 2)
            (.seq (.lit "/".data) (.rep isDigitCh 4)))))))

/-- The unit sub-pattern `(mgs?/dl)` shared by the five quantity patterns. -/
def mgUnitRE : RE := .seq (.lit "mg".data) (.seq (.optC 's') (.lit "/dl".data))

/-- `LABEL[:\s]+([\d.]+)\s*(mgs?/dl)`: the shape of the five lab-value
patterns that capture a unit. -/
def mgLabRE (label : PyStr) : RE :=
  .seq (.lit label)
    (.seq (.plusG isColonSpace)
      (.seq (.grp 1 (.plusG isDigitDot))
        (.seq (.starG isPySpace) (.grp 2 mgUnitRE))))

/-- `LABEL[:\s]+([\d.]+)`: the shape of the two ratio patterns (no unit
group). -/
def ratioLabRE (label : PyStr) : RE :=
  .seq (.lit label) (.seq (.plusG isColonSpace) (.grp 1 (.plusG isDigitDot)))

/-- One entry of the `lab_patterns` table: recognition pattern, LOINC code
and display name. -/
structure LabPattern where
  re : RE
  loinc : String
  display : String

/-- The `lab_patterns` table of `extract_fhir_bundle_regex`, in source
order. -/
def labPatterns : List LabPattern :=
  [ ⟨mgLabRE "Serum Total Cholesterol".data, "33747-0",
      "Cholesterol [Mass/volume] in Serum or Plasma"⟩,
    ⟨mgLabRE "Serum Triglycerides".data, "2571-8",
      "Triglyceride [Mass/volume] in Serum or Plasma"⟩,
    ⟨mgLabRE "HDL Cholesterol".data, "2085-9",
      "Cholesterol in HDL [Mass/volume] in Serum or Plasma"⟩,
    ⟨mgLabRE "LDL Cholesterol".data, "18262-6",
      "Cholesterol in LDL [Mass/volume] in Serum or Plasma"⟩,
    ⟨mgLabRE "VLDL Cholesterol".data, "13458-5",
      "Cholesterol in VLDL [Mass/volume] in Serum or Plasma"⟩,
    ⟨ratioLabRE "Cholesterol/HDL Ratio".data, "9830-1",
      "Cholesterol.total/Cholesterol in HDL [Mass Ratio] in Serum or Plasma"⟩,
    ⟨ratioLabRE "LDL/HDL Ratio".data, "11054-4",
      "Cholesterol in LDL/Cholesterol in HDL [Mass Ratio] in Serum or Plasma"⟩ ]

/-! ### The FHIR resources assembled by the pipeline -/

/-- The `valueQuantity` of an Observation: either a bare ratio (only a
value) or a value with unit, terminology system and unit code. -/
structure Quantity where
  value : ℚ
  unit : Option String
  system : Option String
  ucode : Option String
deriving DecidableEq, Repr

/-- The Patient resource fields the pipeline computes (resourceType and
fixed id omitted). -/
structure PatientR where
  name : String
  gender : String
  birthDate : Option String
deriving DecidableEq, Repr

/-- The DiagnosticReport fields the pipeline computes (the constant
category/code block is omitted). -/
structure ReportR where
  performer : String
  effectiveDateTime : String
deriving DecidableEq, Repr

/-- The Observation fields the pipeline computes. -/
structure ObsR where
  id : String
  loinc : String
  display : String
  effectiveDateTime : String
  valueQuantity : Quantity
deriving DecidableEq, Repr

/-- A bundle entry resource. -/
inductive Resource where
  | pat (p : PatientR)
  | rep (r : ReportR)
  | obs (o : ObsR)
deriving DecidableEq, Repr

/-- The Bundle: its ordered entry list. -/
structure BundleR where
  entry : List Resource
deriving DecidableEq, Repr

/-! ### The pipeline itself -/

/-- `"ratio" in display_name.lower()` -/
def ratioDisplay (display : String) : Bool :=
  containsSub "ratio".data (pyLower display.data)

/-- `f"obs-{n:03d}"` -/
def obsIdent (n : Nat) : String :=
  "obs-" ++ String.mk (List.replicate (3 - (Nat.repr n).length) '0' ++ (Nat.repr n).data)

/-- Patient-name extraction: first match of `patientNameRE`, stripped;
`"Unknown"` when absent. -/
def patientNameOf (text : PyStr) : String :=
  match research patientNameRE text with
  | some caps => String.mk (pyStrip ((capLookup caps 1).getD []))
  | none => "Unknown"

/-- Gender normalization: `"male"` iff the age/sex pattern matched with
sex letter `M`, `"female"` for any other match, `"unknown"` when absent. -/
def genderOf (text : PyStr) : String :=
  match research ageSexRE text with
  | some caps => if (capLookup caps 2).getD [] = ['M'] then "male" else "female"
  | none => "unknown"

/-- Derived birth date: when an age was extracted, `currentYear - age`
with month/day fixed to January 1 (the policy the spec forbids). -/
def birthDateOf (nowYear : Int) (text : PyStr) : Option String :=
  match research ageSexRE text with
  | some caps =>
    let age := (capLookup caps 1).getD []
    if age ≠ [] then
      some (toString (nowYear - (natOfDigits age : Int)) ++ "-01-01")
    else none
  | none => none

/-- Lab facility name: first `labNameRE` match, stripped; the generic
`"Clinical Laboratory"` when absent. -/
def labNameOf (text : PyStr) : String :=
  match research labNameRE text with
  | some caps => String.mk (pyStrip ((capLookup caps 1).getD []))
  | none => "Clinical Laboratory"

/-- `day, month, year = parts` followed by
`f"{year}-{month.zfill(2)}-{day.zfill(2)}"`; any unpack count other than
three raises `ValueError`, which the callers' `except` clauses turn into
`fallback`. -/
def reorderParts (fallback : PyStr) (parts : List PyStr) : PyStr :=
  match parts with
  | [d, m, y] => y ++ ('-' :: pyZfill 2 m) ++ ('-' :: pyZfill 2 d)
  | _ => fallback

/-- The slash-based date reorder rule of `fhir_regex.py`: a string
containing `/` is split; exactly three parts are reordered DD/MM/YYYY to
YYYY-MM-DD with month and day zero-padded; any other split count is the
`except` path, which falls back to the current date. -/
def convertDateRegex (nowDate : PyStr) (s : PyStr) : PyStr :=
  if containsChar '/' s then reorderParts nowDate (pySplit '/' s) else s

/-- The same reorder rule as it appears in `agentic.py`, whose `except`
path is `pass`: the original string is kept. -/
def convertDateAgentic (s : PyStr) : PyStr :=
  if containsChar '/' s then reorderParts s (pySplit '/' s) else s

/-- Report date: the first `reportDateRE` match, else the current date;
then the slash reorder rule. -/
def reportDateOf (nowDate : String) (text : PyStr) : String :=
  let raw :=
    match research reportDateRE text with
    | some caps => (capLookup caps 1).getD []
    | none => nowDate.data
  String.mk (convertDateRegex nowDate.data raw)

/-- The fixed unit-terminology system attached to quantities. -/
def uomSystem : String := "http://unitsofmeasure.org"

/-- The observation loop of `extract_fhir_bundle_regex`: for each pattern
in order, search; on a match, parse the value (`float`, which raises
`ValueError` on an unparseable capture such as `"."`), then attach the
matched unit and terminology system unless the unit is empty or the
display name contains `"ratio"`; identifiers count up from `count`. -/
def buildObservations (reportDate : String) (pats : List LabPattern)
    (text : PyStr) (count : Nat) : Except PyErr (List ObsR) :=
  match pats with
  | [] => .ok []
  | p :: ps =>
    match research p.re text with
    | none => buildObservations reportDate ps text count
    | some caps =>
      match pyFloat ((capLookup caps 1).getD []) with
      | none => .error .valueError
      | some v =>
        let unit := (capLookup caps 2).getD []
        let q : Quantity :=
          if unit ≠ [] && !(ratioDisplay p.display) then
            ⟨v, some (String.mk unit), some uomSystem,
              some (if containsSub "mg".data unit then "mg/dL" else String.mk unit)⟩
          else ⟨v, none, none, none⟩
        match buildObservations reportDate ps text (count + 1) with
        | .error e => .error e
        | .ok rest => .ok (⟨obsIdent count, p.loinc, p.display, reportDate, q⟩ :: rest)

/-- `extract_fhir_bundle_regex` (src/extractors/fhir_regex.py): the full
rule-based pipeline on the raw text of one document. `nowYear` and
`nowDate` stand for `datetime.now().year` and `str(datetime.now().date())`.
An uncaught exception (the `float` call) is the `.error` outcome: the
process dies with a traceback and no bundle is emitted. -/
def extract_fhir_bundle_regex (nowYear : Int) (nowDate : String)
    (raw_text : PyStr) : Except PyErr BundleR :=
  match buildObservations (reportDateOf nowDate raw_text) labPatterns raw_text 1 with
  | .error e => .error e
  | .ok obsList =>
    .ok ⟨.pat ⟨patientNameOf raw_text, genderOf raw_text, birthDateOf nowYear raw_text⟩
          :: .rep ⟨labNameOf raw_text, reportDateOf nowDate raw_text⟩
          :: obsList.map .obs⟩

/-- The Observation resources of a bundle, in entry order. -/
def obsOf (b : BundleR) : List ObsR :=
  b.entry.filterMap (fun r => match r with | .obs o => some o | _ => none)

instance : DecidableEq (Except PyErr BundleR) := fun x y =>
  match x, y with
  | .error a, .error b =>
    match decEq a b with
    | isTrue h => isTrue (by rw [h])
    | isFalse h => isFalse (fun hc => h (by injection hc))
  | .ok a, .ok b =>
    match decEq a b with
    | isTrue h => isTrue (by rw [h])
    | isFalse h => isFalse (fun hc => h (by injection hc))
  | .error _, .ok _ => isFalse (fun hc => Except.noConfusion hc)
  | .ok _, .error _ => isFalse (fun hc => Except.noConfusion hc)

/-! ### JSON trees and the regression harness
(src/validators/run-regression-tests.py)

`Json.null` plays the role of Python `None`: `json.load` turns a JSON
`null` into `None`, and `get_nested_value` returns `None` both for a
resolved null and for every unresolvable path. Arrays and objects are
mutually inductive with `Json` so that all recursions below are
structural. -/

mutual
inductive Json where
  | null
  | boolean (v : Bool)
  | num (v : ℚ)
  | str (s : PyStr)
  | arr (l : JArr)
  | obj (l : JObj)

inductive JArr where
  | nil
  | cons (hd : Json) (tl : JArr)

inductive JObj where
  | nil
  | cons (k : PyStr) (v : Json) (tl : JObj)
end

/-- Number of elements of a JSON array. -/
def jarrLen : JArr → Nat
  | .nil => 0
  | .cons _ t => jarrLen t + 1

/-- `list[i]` on a JSON array; `none` models `IndexError`. -/
def jarrGet : JArr → Nat → Option Json
  | .nil, _ => none
  | .cons h _, 0 => some h
  | .cons _ t, n + 1 => jarrGet t n

/-- Number of keys of a JSON object. -/
def jobjLen : JObj → Nat
  | .nil => 0
  | .cons _ _ t => jobjLen t + 1

/-- `dict[k]` on a JSON object; `none` models `KeyError`. -/
def jobjLookup : JObj → PyStr → Option Json
  | .nil, _ => none
  | .cons k v t, key => if k = key then some v else jobjLookup t key

mutual
/-- Python `==` on loaded JSON values: structural on scalars and lists,
key-order-insensitive on dictionaries (which `json.load` produces
duplicate-free). -/
def jsonEq : Json → Json → Bool
  | .null, .null => true
  | .boolean a, .boolean b => a = b
  | .num a, .num b => a = b
  | .str a, .str b => a = b
  | .arr a, .arr b => jarrEq a b
  | .obj a, .obj b => jobjLen a = jobjLen b && jobjSubEq a b
  | _, _ => false

/-- Elementwise equality of JSON arrays. -/
def jarrEq : JArr → JArr → Bool
  | .nil, .nil => true
  | .cons h t, .cons h2 t2 => jsonEq h h2 && jarrEq t t2
  | _, _ => false

/-- Every key/value pair of the first object matches in the second. -/
def jobjSubEq : JObj → JObj → Bool
  | .nil, _ => true
  | .cons k v t, b =>
    (match jobjLookup b k with
     | some v2 => jsonEq v v2
     | none => false) && jobjSubEq t b
end

/-- Python `str.isdigit()` (ASCII model): nonempty and all digits. -/
def isdigitStr (s : PyStr) : Bool := !s.isEmpty && s.all isDigitCh

/-- The loop body of `get_nested_value`, with the exception channel
explicit: a digit segment on a list indexes it (`IndexError` when out of
range), any segment on a dictionary is a key lookup (`KeyError` when
missing), and any other combination is the `else: return None` branch. -/
def resolveSteps : Json → List PyStr → Except PyErr Json
  | cur, [] => .ok cur
  | .arr l, k :: ks =>
    if isdigitStr k then
      match jarrGet l (natOfDigits k) with
      | some v => resolveSteps v ks
      | none => .error .indexError
    else .ok .null
  | .obj o, k :: ks =>
    match jobjLookup o k with
    | some v => resolveSteps v ks
    | none => .error .keyError
  | .null, _ :: _ => .ok .null
  | .boolean _, _ :: _ => .ok .null
  | .num _, _ :: _ => .ok .null
  | .str _, _ :: _ => .ok .null

/-- The exception classes named by the `except` clause of
`get_nested_value`. -/
def caughtByGNV : PyErr → Bool
  | .keyError | .indexError | .valueError | .typeError => true
  | _ => false

/-- `get_nested_value(data, field_path)`: split the path on dots, walk the
tree, and catch `(KeyError, IndexError, ValueError, TypeError)` to return
`None`. An `.error` outcome would be an exception escaping the function. -/
def get_nested_value (data : Json) (fieldPath : PyStr) : Except PyErr Json :=
  match resolveSteps data (pySplit '.' fieldPath) with
  | .ok v => .ok v
  | .error e => if caughtByGNV e then .ok .null else .error e

/-- The value `get_nested_value` hands to its caller. -/
def gnv (data : Json) (fieldPath : PyStr) : Json :=
  match get_nested_value data fieldPath with
  | .ok v => v
  | .error _ => .null

/-- `compare_json_fields`: resolve every path in both trees and collect a
difference entry `(field, baseline value, output value)` whenever the two
resolved values differ; the first component of the result is the
all-fields-match verdict. -/
def compare_json_fields (outputData baselineData : Json) (fieldList : List PyStr) :
    Bool × List (PyStr × Json × Json) :=
  let differences := fieldList.filterMap (fun fp =>
    let outputValue := gnv outputData fp
    let baselineValue := gnv baselineData fp
    if jsonEq outputValue baselineValue then none
    else some (fp, baselineValue, outputValue))
  (differences.length == 0, differences)

/-- Clean resolution, the spec-level notion `get_nested_value` refines:
`some v` iff the path truly leads to the value `v` (so `some .null` is a
present-but-null field), `none` for every failure (missing key,
out-of-range index, traversal into a scalar, non-digit list index). -/
def cleanResolve : Json → List PyStr → Option Json
  | cur, [] => some cur
  | .arr l, k :: ks =>
    if isdigitStr k then
      match jarrGet l (natOfDigits k) with
      | some v => cleanResolve v ks
      | none => none
    else none
  | .obj o, k :: ks =>
    match jobjLookup o k with
    | some v => cleanResolve v ks
    | none => none
  | .null, _ :: _ => none
  | .boolean _, _ :: _ => none
  | .num _, _ :: _ => none
  | .str _, _ :: _ => none

/-! ### The regression driver `run_tests`

Configuration (program path, test root, field file) and the per-case disk
state are collaborator inputs. The comparison verdict of a case is case
data (`comparePasses`), since it is a function of the files on disk;
`outfileExists` records whether the program under test produced its
output file. -/

/-- The per-case facts `run_tests` consumes in verify mode. -/
structure TestCase where
  /-- exit code of `python program infile` -/
  exitCode : Nat
  /-- the program produced its output JSON file -/
  outfileExists : Bool
  /-- a stored baseline file exists for this case -/
  baselineExists : Bool
  /-- verdict of the comparison step (byte comparison or field list) -/
  comparePasses : Bool
deriving DecidableEq, Repr

/-- Outcome of a `run_tests` invocation. -/
inductive HarnessOutcome where
  /-- `sys.exit(1)` before any case ran (missing program, missing test
  root, missing field file) -/
  | configError
  /-- an uncaught exception aborted the loop; the per-case verdicts of
  the cases that did run are recorded -/
  | aborted (results : List Bool)
  /-- the loop visited every case; all per-case verdicts plus the
  aggregated `all_passed` flag -/
  | finished (results : List Bool) (allPassed : Bool)
deriving DecidableEq, Repr

/-- The verify-mode case loop. `subprocess.run(..., check=True)` raises
`CalledProcessError` on a non-zero exit, which no handler catches; in
whole-file mode a missing output file makes `filecmp.cmp` raise
`FileNotFoundError`; in field mode `compare_json_fields` catches its
file errors and returns a failed comparison. -/
def runCaseLoop (fieldMode : Bool) : List TestCase → List Bool → Bool → HarnessOutcome
  | [], acc, allPassed => .finished acc.reverse allPassed
  | c :: cs, acc, allPassed =>
    if c.exitCode ≠ 0 then .aborted acc.reverse
    else if !c.baselineExists then
      runCaseLoop fieldMode cs (true :: acc) allPassed
    else if fieldMode then
      let pass := c.outfileExists && c.comparePasses
      runCaseLoop fieldMode cs (pass :: acc) (allPassed && pass)
    else if !c.outfileExists then .aborted acc.reverse
    else runCaseLoop fieldMode cs (c.comparePasses :: acc) (allPassed && c.comparePasses)

/-- `run_tests` in verify mode: the three fatal configuration checks, then
the case loop. `fieldFile = none` is whole-file mode; `some exists` is
field mode with `exists` recording whether the field file could be read
(`load_field_list` exits the process when it cannot). -/
def run_tests (programExists testRootExists : Bool) (fieldFile : Option Bool)
    (cases : List TestCase) : HarnessOutcome :=
  if !programExists then .configError
  else if !testRootExists then .configError
  else
    match fieldFile with
    | some false => .configError
    | some true => runCaseLoop true cases [] true
    | none => runCaseLoop false cases [] true

/-- The per-case verdict `run_tests` prints when the case's program
invocation succeeds. -/
def caseVerdict (fieldMode : Bool) (c : TestCase) : Bool :=
  if !c.baselineExists then true
  else if fieldMode then c.outfileExists && c.comparePasses
  else c.comparePasses

/-- The unit/ratio discipline a single emitted Observation must satisfy:
a ratio display name comes with a bare value, any other display name
comes with a nonempty unit, the fixed terminology system and a unit
code. -/
def QuantOK (o : ObsR) : Prop :=
  (ratioDisplay o.display = true →
    o.valueQuantity.unit = none ∧ o.valueQuantity.system = none ∧
      o.valueQuantity.ucode = none) ∧
  (ratioDisplay o.display = false →
    ∃ u, o.valueQuantity.unit = some u ∧ u ≠ "" ∧
      o.valueQuantity.system = some uomSystem ∧
      ∃ cd, o.valueQuantity.ucode = some cd)

/-- Well-formedness of a pattern-table entry: a match of a ratio-display
entry binds no unit group, a match of any other entry binds a nonempty
unit. -/
def PatOK (p : LabPattern) : Prop :=
  ∀ text caps, research p.re text = some caps →
    (ratioDisplay p.display = true → (capLookup caps 2).getD [] = []) ∧
    (ratioDisplay p.display = false → (capLookup caps 2).getD [] ≠ [])

/-- The bundle the pipeline produces for the document
`"HDL Cholesterol: 50 mg/dl"` at current date 2026-10-12. -/
def hdlDocBundle : BundleR :=
  ⟨[.pat ⟨"Unknown", "unknown", none⟩,
    .rep ⟨"Clinical Laboratory", "2026-10-12"⟩,
    .obs ⟨"obs-001", "2085-9", "Cholesterol in HDL [Mass/volume] in Serum or Plasma",
      "2026-10-12", ⟨50, some "mg/dl", some uomSystem, some "mg/dL"⟩⟩]⟩

/-- The bundle the pipeline produces for the empty document at current
date 2026-10-12. -/
def emptyDocBundle : BundleR :=
  ⟨[.pat ⟨"Unknown", "unknown", none⟩,
    .rep ⟨"Clinical Laboratory", "2026-10-12"⟩]⟩

/-- The bundle the pipeline produces for the document
`"Cholesterol/HDL Ratio: 3.5"` at current date 2026-10-12. -/
def ratioDocBundle : BundleR :=
  ⟨[.pat ⟨"Unknown", "unknown", none⟩,
    .rep ⟨"Clinical Laboratory", "2026-10-12"⟩,
    .obs ⟨"obs-001", "9830-1",
      "Cholesterol.total/Cholesterol in HDL [Mass Ratio] in Serum or Plasma",
      "2026-10-12", ⟨mkRat 7 2, none, none, none⟩⟩]⟩

/-! ## Lemmas and claim theorems -/

/-- A string without the separator splits into itself alone. -/
theorem pySplit_no_sep (sep : Char) :
    ∀ s : PyStr, containsChar sep s = false → pySplit sep s = [s] := by
  intro s
  induction s with
  | nil => intro _; rfl
  | cons c cs ih =>
    intro h
    simp only [containsChar, Bool.or_eq_false_iff] at h
    obtain ⟨h1, h2⟩ := h
    have hcs := ih h2
    simp only [pySplit]
    rw [if_neg (by simpa [eq_comm] using h1), hcs]

/-- A three-part split forces the separator to occur in the string. -/
theorem pySplit_three_contains (sep : Char) (s d m y : PyStr)
    (h : pySplit sep s = [d, m, y]) : containsChar sep s = true := by
  by_contra hc
  rw [pySplit_no_sep sep s (by simpa using hc)] at h
  simp at h

/-- A split with any part count other than three takes the fallback arm
of `reorderParts`. -/
theorem reorderParts_not_three (fb : PyStr) (parts : List PyStr)
    (h : ∀ d m y, parts ≠ [d, m, y]) : reorderParts fb parts = fb := by
  match parts with
  | [] => rfl
  | [a] => rfl
  | [a, b] => rfl
  | [a, b, c] => exact absurd rfl (h a b c)
  | a :: b :: c :: e :: t => rfl

/-- Claim C8: the slash-based date reorder rule is idempotent on input
without `/` (left unchanged by both the `fhir_regex.py` and the
`agentic.py` variant); on a string splitting into exactly three parts
day/month/year it produces `year-month-day` with month and day
zero-padded; and on any other split count it never raises: the
`fhir_regex.py` variant keeps the current-date fallback, the `agentic.py`
variant keeps the original string. -/
theorem c8_date_reorder (nowDate s : PyStr) :
    (containsChar '/' s = false →
      convertDateRegex nowDate s = s ∧ convertDateAgentic s = s) ∧
    (∀ d m y, pySplit '/' s = [d, m, y] →
      convertDateRegex nowDate s = y ++ ('-' :: pyZfill 2 m) ++ ('-' :: pyZfill 2 d) ∧
      convertDateAgentic s = y ++ ('-' :: pyZfill 2 m) ++ ('-' :: pyZfill 2 d)) ∧
    ((∀ d m y, pySplit '/' s ≠ [d, m, y]) →
      (convertDateRegex nowDate s = nowDate ∨ convertDateRegex nowDate s = s) ∧
      convertDateAgentic s = s) := by
  refine ⟨?_, ?_, ?_⟩
  · intro h
    exact ⟨by simp [convertDateRegex, h], by simp [convertDateAgentic, h]⟩
  · intro d m y h
    have hc : containsChar '/' s = true := pySplit_three_contains '/' s d m y h
    constructor
    · simp only [convertDateRegex, hc, if_true, h, reorderParts]
    · simp only [convertDateAgentic, hc, if_true, h, reorderParts]
  · intro h
    by_cases hc : containsChar '/' s = true
    · constructor
      · exact Or.inl (by simp only [convertDateRegex, hc, if_true,
          reorderParts_not_three nowDate (pySplit '/' s) h])
      · simp only [convertDateAgentic, hc, if_true,
          reorderParts_not_three s (pySplit '/' s) h]
    · have hc2 : containsChar '/' s = false := by simpa using hc
      exact ⟨Or.inr (by simp [convertDateRegex, hc2]),
        by simp [convertDateAgentic, hc2]⟩

/-- Witness for C8 at concrete inputs: `"01/02/2024"` reorders to
`"2024-02-01"`, and the already-normalized `"2026-10-12"` is kept
unchanged. -/
theorem c8_date_reorder_witness :
    convertDateRegex "NOW".data "01/02/2024".data = "2024-02-01".data ∧
    convertDateRegex "NOW".data "2026-10-12".data = "2026-10-12".data := by
  constructor
  · exact ((c8_date_reorder "NOW".data "01/02/2024".data).2.1
      "01".data "02".data "2024".data (by decide)).1
  · exact ((c8_date_reorder "NOW".data "2026-10-12".data).1 (by decide)).1

/-! ### Harness lemmas and claims C10, C9, C6, C5 -/

/-- The traversal body of `get_nested_value` only ever raises exceptions
from the caught classes (`KeyError` from a dictionary, `IndexError` from
a list). -/
theorem resolveSteps_err_caught :
    ∀ (ks : List PyStr) (d : Json) (e : PyErr),
      resolveSteps d ks = .error e → caughtByGNV e = true := by
  intro ks
  induction ks with
  | nil =>
    intro d e h
    simp [resolveSteps] at h
  | cons k ks ih =>
    intro d e h
    cases d with
    | arr l =>
      simp only [resolveSteps] at h
      split at h
      · cases hg : jarrGet l (natOfDigits k) with
        | some v =>
          rw [hg] at h
          exact ih v e h
        | none =>
          rw [hg] at h
          injection h with h2
          rw [← h2]
          rfl
      · exact absurd h (by simp)
    | obj o =>
      simp only [resolveSteps] at h
      cases hg : jobjLookup o k with
      | some v =>
        rw [hg] at h
        exact ih v e h
      | none =>
        rw [hg] at h
        injection h with h2
        rw [← h2]
        rfl
    | null => simp [resolveSteps] at h
    | boolean b => simp [resolveSteps] at h
    | num q => simp [resolveSteps] at h
    | str s => simp [resolveSteps] at h

/-- Claim C10: `get_nested_value` is total — on every JSON-like tree and
every dotted path it returns a value (possibly the `None` sentinel) and
never lets an exception escape. -/
theorem c10_get_nested_total (d : Json) (fp : PyStr) :
    ∃ v, get_nested_value d fp = .ok v := by
  rcases h : resolveSteps d (pySplit '.' fp) with e | v
  · exact ⟨.null, by simp [get_nested_value, h, resolveSteps_err_caught _ d e h]⟩
  · exact ⟨v, by simp [get_nested_value, h]⟩

/-- A path on which both trees resolve to equal values contributes no
difference entry. -/
theorem compare_not_mem_of_eq (out base : Json) (fps : List PyStr) (fp : PyStr)
    (heq : jsonEq (gnv out fp) (gnv base fp) = true) :
    ∀ bv ov, (fp, bv, ov) ∉ (compare_json_fields out base fps).2 := by
  intro bv ov hmem
  simp only [compare_json_fields] at hmem
  obtain ⟨a, ha, hfa⟩ := List.mem_filterMap.mp hmem
  split at hfa
  · exact Option.noConfusion hfa
  · rename_i hcond
    injection hfa with h3
    have ha2 : a = fp := congrArg Prod.fst h3
    rw [ha2] at hcond
    exact hcond heq

/-- A path on which the two trees resolve to unequal values contributes a
difference entry carrying both resolved values. -/
theorem compare_mem_of_ne (out base : Json) (fps : List PyStr) (fp : PyStr)
    (hmem : fp ∈ fps) (hne : jsonEq (gnv out fp) (gnv base fp) = false) :
    (fp, gnv base fp, gnv out fp) ∈ (compare_json_fields out base fps).2 := by
  simp only [compare_json_fields]
  exact List.mem_filterMap.mpr ⟨fp, hmem, by simp [hne]⟩

/-- `jsonEq` against `null` on the left holds only for `null`. -/
theorem jsonEq_null_left (v : Json) (h : v ≠ .null) : jsonEq .null v = false := by
  cases v with
  | null => exact absurd rfl h
  | boolean b => rfl
  | num q => rfl
  | str s => rfl
  | arr l => rfl
  | obj o => rfl

/-- `jsonEq` against `null` on the right holds only for `null`. -/
theorem jsonEq_null_right (v : Json) (h : v ≠ .null) : jsonEq v .null = false := by
  cases v with
  | null => exact absurd rfl h
  | boolean b => rfl
  | num q => rfl
  | str s => rfl
  | arr l => rfl
  | obj o => rfl

/-- Clean resolution refines the traversal body: a truly resolved value
is what the body returns. -/
theorem cleanResolve_ok :
    ∀ (ks : List PyStr) (d v : Json), cleanResolve d ks = some v →
      resolveSteps d ks = .ok v := by
  intro ks
  induction ks with
  | nil =>
    intro d v h
    simp only [cleanResolve, Option.some.injEq] at h
    rw [h]
    simp [resolveSteps]
  | cons k ks ih =>
    intro d v h
    cases d with
    | arr l =>
      simp only [cleanResolve] at h
      split at h
      · rename_i hdig
        cases hg : jarrGet l (natOfDigits k) with
        | some w =>
          rw [hg] at h
          simp only [resolveSteps, hdig, if_true, hg]
          exact ih w v h
        | none =>
          rw [hg] at h
          exact Option.noConfusion h
      · exact Option.noConfusion h
    | obj o =>
      simp only [cleanResolve] at h
      cases hg : jobjLookup o k with
      | some w =>
        rw [hg] at h
        simp only [resolveSteps, hg]
        exact ih w v h
      | none =>
        rw [hg] at h
        exact Option.noConfusion h
    | null => exact Option.noConfusion h
    | boolean b => exact Option.noConfusion h
    | num q => exact Option.noConfusion h
    | str s => exact Option.noConfusion h

/-- The caller-visible value is the body's value when the body succeeds. -/
theorem gnv_of_ok (d : Json) (fp : PyStr) (v : Json)
    (h : resolveSteps d (pySplit '.' fp) = .ok v) : gnv d fp = v := by
  simp [gnv, get_nested_value, h]

/-- The caller-visible value is the `None` sentinel when the body raises. -/
theorem gnv_of_error (d : Json) (fp : PyStr) (e : PyErr)
    (h : resolveSteps d (pySplit '.' fp) = .error e) : gnv d fp = .null := by
  simp [gnv, get_nested_value, h, resolveSteps_err_caught _ d e h]

/-- Claim C9: field-path comparison cannot distinguish an explicit JSON
null from an absent path — when a path resolves to null in one tree and
raises `KeyError` or `IndexError` in the other, both sides surface the
same `None` sentinel and `compare_json_fields` reports a match (no
difference entry for that path). -/
theorem c9_null_indistinguishable (out base : Json) (fp : PyStr) (fps : List PyStr)
    (h : (cleanResolve out (pySplit '.' fp) = some .null ∧
           (resolveSteps base (pySplit '.' fp) = .error .keyError ∨
            resolveSteps base (pySplit '.' fp) = .error .indexError)) ∨
         (cleanResolve base (pySplit '.' fp) = some .null ∧
           (resolveSteps out (pySplit '.' fp) = .error .keyError ∨
            resolveSteps out (pySplit '.' fp) = .error .indexError))) :
    gnv out fp = gnv base fp ∧
    ∀ bv ov, (fp, bv, ov) ∉ (compare_json_fields out base fps).2 := by
  have hnn : gnv out fp = .null ∧ gnv base fp = .null := by
    rcases h with ⟨h1, h2⟩ | ⟨h1, h2⟩
    · refine ⟨gnv_of_ok out fp .null (cleanResolve_ok _ out .null h1), ?_⟩
      rcases h2 with h2 | h2
      · exact gnv_of_error base fp _ h2
      · exact gnv_of_error base fp _ h2
    · refine ⟨?_, gnv_of_ok base fp .null (cleanResolve_ok _ base .null h1)⟩
      rcases h2 with h2 | h2
      · exact gnv_of_error out fp _ h2
      · exact gnv_of_error out fp _ h2
  refine ⟨hnn.1.trans hnn.2.symm, ?_⟩
  exact compare_not_mem_of_eq out base fps fp (by rw [hnn.1, hnn.2]; rfl)

/-- Witness for C9: output `{"a": null}` versus baseline `{}` at path
`"a"`: a present-but-null field and a missing field surface the same
sentinel and compare as a match. -/
theorem c9_null_indistinguishable_witness :
    gnv (Json.obj (.cons "a".data Json.null .nil)) "a".data =
      gnv (Json.obj .nil) "a".data ∧
    ∀ bv ov, ("a".data, bv, ov) ∉
      (compare_json_fields (Json.obj (.cons "a".data Json.null .nil))
        (Json.obj .nil) ["a".data]).2 :=
  c9_null_indistinguishable (Json.obj (.cons "a".data Json.null .nil))
    (Json.obj .nil) "a".data ["a".data]
    (Or.inl ⟨rfl, Or.inl rfl⟩)

/-- Counterexample to C6 as stated: output `{"x": null}` has path `"x"`
present (resolving to an explicit null) while baseline `{}` lacks it
entirely, yet `compare_json_fields` reports a clean match `(true, [])`
where the claim requires an absent-versus-present mismatch. -/
theorem c6_null_vs_absent_match :
    cleanResolve (Json.obj (.cons "x".data Json.null .nil)) (pySplit '.' "x".data) =
      some Json.null ∧
    resolveSteps (Json.obj .nil) (pySplit '.' "x".data) = .error .keyError ∧
    compare_json_fields (Json.obj (.cons "x".data Json.null .nil)) (Json.obj .nil)
      ["x".data] = (true, []) :=
  ⟨rfl, rfl, rfl⟩

/-- Claim C6 (amended): an out-of-range index and a missing key raise the
two caught exception classes and both surface the identical `None`
sentinel; in field comparison, equal resolved values (in particular
sentinel versus sentinel) contribute no difference, a sentinel against a
present non-null value is a mismatch, and every value mismatch is
reported with both sides' resolved values. -/
theorem c6_compare_semantics :
    (∀ (l : JArr) (k : PyStr) (ks : List PyStr), isdigitStr k = true →
      jarrGet l (natOfDigits k) = none →
      resolveSteps (Json.arr l) (k :: ks) = .error .indexError) ∧
    (∀ (o : JObj) (k : PyStr) (ks : List PyStr), jobjLookup o k = none →
      resolveSteps (Json.obj o) (k :: ks) = .error .keyError) ∧
    (∀ (d : Json) (fp : PyStr),
      (resolveSteps d (pySplit '.' fp) = .error .indexError ∨
       resolveSteps d (pySplit '.' fp) = .error .keyError) → gnv d fp = .null) ∧
    (∀ (out base : Json) (fps : List PyStr) (fp : PyStr),
      jsonEq (gnv out fp) (gnv base fp) = true →
      ∀ bv ov, (fp, bv, ov) ∉ (compare_json_fields out base fps).2) ∧
    (∀ (out base : Json) (fps : List PyStr) (fp : PyStr), fp ∈ fps →
      gnv out fp = .null → gnv base fp ≠ .null →
      (fp, gnv base fp, Json.null) ∈ (compare_json_fields out base fps).2) ∧
    (∀ (out base : Json) (fps : List PyStr) (fp : PyStr), fp ∈ fps →
      gnv base fp = .null → gnv out fp ≠ .null →
      (fp, Json.null, gnv out fp) ∈ (compare_json_fields out base fps).2) ∧
    (∀ (out base : Json) (fps : List PyStr) (fp : PyStr), fp ∈ fps →
      jsonEq (gnv out fp) (gnv base fp) = false →
      (fp, gnv base fp, gnv out fp) ∈ (compare_json_fields out base fps).2) := by
  refine ⟨?_, ?_, ?_, ?_, ?_, ?_, ?_⟩
  · intro l k ks hdig hg
    simp [resolveSteps, hdig, hg]
  · intro o k ks hg
    simp [resolveSteps, hg]
  · intro d fp h
    rcases h with h | h
    · exact gnv_of_error d fp _ h
    · exact gnv_of_error d fp _ h
  · exact fun out base fps fp heq => compare_not_mem_of_eq out base fps fp heq
  · intro out base fps fp hmem ho hb
    have := compare_mem_of_ne out base fps fp hmem
      (by rw [ho]; exact jsonEq_null_left _ hb)
    rw [ho] at this
    exact this
  · intro out base fps fp hmem hb ho
    have := compare_mem_of_ne out base fps fp hmem
      (by rw [hb]; exact jsonEq_null_right _ ho)
    rw [hb] at this
    exact this
  · exact fun out base fps fp hmem hne => compare_mem_of_ne out base fps fp hmem hne

/-- Witness for C6 (amended) at concrete trees: output `{"k": 1}` versus
baseline `{}` at path `"k"` yields a reported difference carrying the
sentinel and the present value. -/
theorem c6_compare_semantics_witness :
    ("k".data, Json.null, Json.num 1) ∈
      (compare_json_fields (Json.obj (.cons "k".data (Json.num 1) .nil))
        (Json.obj .nil) ["k".data]).2 :=
  c6_compare_semantics.2.2.2.2.2.1
    (Json.obj (.cons "k".data (Json.num 1) .nil)) (Json.obj .nil)
    ["k".data] "k".data (List.mem_singleton.mpr rfl) rfl
    (by intro h; exact Json.noConfusion h)

/-- The verify-mode loop with healthy program invocations visits every
selected case, aggregating the per-case verdicts. -/
theorem runCaseLoop_all_ok (fm : Bool) :
    ∀ (cs : List TestCase) (acc : List Bool) (ap : Bool),
      (∀ c ∈ cs, c.exitCode = 0 ∧ c.outfileExists = true) →
      runCaseLoop fm cs acc ap =
        .finished (acc.reverse ++ cs.map (caseVerdict fm))
          (ap && cs.all (caseVerdict fm)) := by
  intro cs
  induction cs with
  | nil =>
    intro acc ap h
    simp [runCaseLoop]
  | cons c cs ih =>
    intro acc ap h
    obtain ⟨hex, hout⟩ := h c (List.mem_cons_self c cs)
    have hrest : ∀ x ∈ cs, x.exitCode = 0 ∧ x.outfileExists = true :=
      fun x hx => h x (List.mem_cons_of_mem c hx)
    obtain ⟨ec, ofe, be, cp⟩ := c
    simp only at hex hout
    subst hex hout
    cases be with
    | false =>
      simp only [runCaseLoop, caseVerdict]
      rw [if_neg (by simp), ih (true :: acc) ap hrest]
      simp [List.all_cons, caseVerdict]
    | true =>
      cases fm with
      | true =>
        simp only [runCaseLoop, caseVerdict]
        rw [if_neg (by simp), ih ((true && cp) :: acc) (ap && (true && cp)) hrest]
        simp [List.all_cons, caseVerdict, Bool.and_assoc]
      | false =>
        simp only [runCaseLoop, caseVerdict]
        rw [if_neg (by simp), ih (cp :: acc) (ap && cp) hrest]
        simp [List.all_cons, caseVerdict, Bool.and_assoc]

/-- Counterexample to C5 as stated: two cases are selected, the first
program invocation exits non-zero, and the harness aborts with zero
per-case verdicts recorded — the second case never runs, although the
claim requires the harness to continue through all cases. -/
theorem c5_abort_on_case_failure :
    run_tests true true none
      [⟨1, true, true, true⟩, ⟨0, true, true, true⟩] = .aborted [] := rfl

/-- Claim C5 (amended): the three configuration errors abort before any
case runs; when every selected case's program invocation exits zero and
produces its output file, the harness (in both whole-file and field
comparison modes) continues through all cases — comparison failures never
abort — and reports the aggregated conjunction of per-case verdicts; but
a failing pipeline-under-test invocation raises `CalledProcessError` and
aborts the remaining cases (see the counterexample). -/
theorem c5_harness_flow (ff : Option Bool) (cs : List TestCase) :
    (run_tests false true ff cs = .configError) ∧
    (run_tests true false ff cs = .configError) ∧
    (run_tests true true (some false) cs = .configError) ∧
    ((∀ c ∈ cs, c.exitCode = 0 ∧ c.outfileExists = true) →
      run_tests true true none cs =
        .finished (cs.map (caseVerdict false)) (cs.all (caseVerdict false))) ∧
    ((∀ c ∈ cs, c.exitCode = 0 ∧ c.outfileExists = true) →
      run_tests true true (some true) cs =
        .finished (cs.map (caseVerdict true)) (cs.all (caseVerdict true))) := by
  refine ⟨rfl, rfl, rfl, ?_, ?_⟩
  · intro h
    show runCaseLoop false cs [] true = _
    rw [runCaseLoop_all_ok false cs [] true h]
    simp
  · intro h
    show runCaseLoop true cs [] true = _
    rw [runCaseLoop_all_ok true cs [] true h]
    simp

/-- Witness for C5 (amended): two healthy invocations, the first failing
its comparison and the second having no baseline — both cases run and the
aggregate fails. -/
theorem c5_harness_flow_witness :
    run_tests true true none
      [⟨0, true, true, false⟩, ⟨0, true, false, true⟩] =
      .finished [false, true] false := by
  have h := (c5_harness_flow none
    [⟨0, true, true, false⟩, ⟨0, true, false, true⟩]).2.2.2.1 (by decide)
  exact h

/-! ### Regex-engine lemmas -/

/-- A matched literal needs at least its own length of input. -/
theorem startsWithList_length :
    ∀ s t : PyStr, startsWithList s t = true → s.length ≤ t.length := by
  intro s
  induction s with
  | nil => intro t _; simp
  | cons c cs ih =>
    intro t h
    cases t with
    | nil => simp [startsWithList] at h
    | cons d ds =>
      simp only [startsWithList, Bool.and_eq_true] at h
      have := ih ds h.2
      simp only [List.length_cons]
      omega

/-- Membership in the concatenation combinator. -/
theorem mem_seqComb (f : PyStr → List (PyStr × Caps)) :
    ∀ (ra : List (PyStr × Caps)) (x : PyStr × Caps),
      x ∈ seqComb ra f ↔
        ∃ rc, rc ∈ ra ∧ ∃ rc2, rc2 ∈ f rc.1 ∧ x = (rc2.1, rc.2 ++ rc2.2) := by
  intro ra
  induction ra with
  | nil => intro x; simp [seqComb]
  | cons rc rest ih =>
    intro x
    simp only [seqComb, List.mem_append, List.mem_map, ih, List.mem_cons]
    constructor
    · rintro (⟨rc2, h2, rfl⟩ | ⟨rc1, h1, rc2, h2, rfl⟩)
      · exact ⟨rc, Or.inl rfl, rc2, h2, rfl⟩
      · exact ⟨rc1, Or.inr h1, rc2, h2, rfl⟩
    · rintro ⟨rc1, (rfl | h1), rc2, h2, rfl⟩
      · exact Or.inl ⟨rc2, h2, rfl⟩
      · exact Or.inr ⟨rc1, h1, rc2, h2, rfl⟩

/-- Every capture produced by a match is bound by a group occurring in
the regex. -/
theorem mrun_caps_keys :
    ∀ (r : RE) (inp : PyStr) (x : PyStr × Caps),
      x ∈ mrun r inp → ∀ e ∈ x.2, e.1 ∈ groupNums r := by
  intro r
  induction r with
  | lit s =>
    intro inp x hx e he
    simp only [mrun] at hx
    split at hx
    · simp only [List.mem_singleton] at hx
      rw [hx] at he
      simp at he
    · simp at hx
  | cls p =>
    intro inp x hx e he
    cases inp with
    | nil => simp [mrun] at hx
    | cons c rest =>
      simp only [mrun] at hx
      split at hx
      · simp only [List.mem_singleton] at hx
        rw [hx] at he
        simp at he
      · simp at hx
  | plusG p =>
    intro inp x hx e he
    simp only [mrun, List.mem_map] at hx
    obtain ⟨k, _, hk⟩ := hx
    rw [← hk] at he
    simp at he
  | plusL p =>
    intro inp x hx e he
    simp only [mrun, List.mem_map] at hx
    obtain ⟨k, _, hk⟩ := hx
    rw [← hk] at he
    simp at he
  | starG p =>
    intro inp x hx e he
    simp only [mrun, List.mem_append, List.mem_map, List.mem_singleton] at hx
    rcases hx with ⟨k, _, hk⟩ | hx
    · rw [← hk] at he
      simp at he
    · rw [hx] at he
      simp at he
  | optC c =>
    intro inp x hx e he
    cases inp with
    | nil =>
      simp only [mrun, List.nil_append, List.mem_singleton] at hx
      rw [hx] at he
      simp at he
    | cons c2 rest =>
      simp only [mrun, List.mem_append, List.mem_singleton] at hx
      rcases hx with hx | hx
      · split at hx
        · simp only [List.mem_singleton] at hx
          rw [hx] at he
          simp at he
        · simp at hx
      · rw [hx] at he
        simp at he
  | rep p n =>
    intro inp x hx e he
    simp only [mrun] at hx
    split at hx
    · simp only [List.mem_singleton] at hx
      rw [hx] at he
      simp at he
    · simp at hx
  | seq a b iha ihb =>
    intro inp x hx e he
    obtain ⟨rc, h1, rc2, h2, hx⟩ := (mem_seqComb _ _ _).mp hx
    rw [hx] at he
    simp only [groupNums, List.mem_append]
    have he2 : e ∈ rc.2 ∨ e ∈ rc2.2 := by simpa using he
    rcases he2 with he2 | he2
    · exact Or.inl (iha inp rc h1 e he2)
    · exact Or.inr (ihb rc.1 rc2 h2 e he2)
  | alt a b iha ihb =>
    intro inp x hx e he
    simp only [mrun, List.mem_append] at hx
    simp only [groupNums, List.mem_append]
    rcases hx with hx | hx
    · exact Or.inl (iha inp x hx e he)
    · exact Or.inr (ihb inp x hx e he)
  | eos =>
    intro inp x hx e he
    cases inp with
    | nil =>
      simp only [mrun, List.mem_singleton] at hx
      rw [hx] at he
      simp at he
    | cons c rest =>
      cases rest with
      | nil =>
        simp only [mrun] at hx
        split at hx
        · simp only [List.mem_singleton] at hx
          rw [hx] at he
          simp at he
        · simp at hx
      | cons c2 rest2 => simp [mrun] at hx
  | grp n r ih =>
    intro inp x hx e he
    simp only [mrun, List.mem_map] at hx
    obtain ⟨rc, h1, hx⟩ := hx
    rw [← hx] at he
    have he2 : e ∈ rc.2 ∨ e = (n, inp.take (inp.length - rc.1.length)) := by
      simpa using he
    rcases he2 with he2 | he2
    · exact List.mem_cons_of_mem n (ih inp rc h1 e he2)
    · rw [he2]
      exact List.mem_cons_self n _

/-- A match never lengthens the remaining input. -/
theorem mrun_rem_len :
    ∀ (r : RE) (inp : PyStr) (x : PyStr × Caps),
      x ∈ mrun r inp → x.1.length ≤ inp.length := by
  intro r
  induction r with
  | lit s =>
    intro inp x hx
    simp only [mrun] at hx
    split at hx
    · simp only [List.mem_singleton] at hx
      rw [hx]
      simp [Nat.sub_le]
    · simp at hx
  | cls p =>
    intro inp x hx
    cases inp with
    | nil => simp [mrun] at hx
    | cons c rest =>
      simp only [mrun] at hx
      split at hx
      · simp only [List.mem_singleton] at hx
        rw [hx]
        simp only [List.length_cons]
        omega
      · simp at hx
  | plusG p =>
    intro inp x hx
    simp only [mrun, List.mem_map] at hx
    obtain ⟨k, _, hk⟩ := hx
    rw [← hk]
    simp [Nat.sub_le]
  | plusL p =>
    intro inp x hx
    simp only [mrun, List.mem_map] at hx
    obtain ⟨k, _, hk⟩ := hx
    rw [← hk]
    simp [Nat.sub_le]
  | starG p =>
    intro inp x hx
    simp only [mrun, List.mem_append, List.mem_map, List.mem_singleton] at hx
    rcases hx with ⟨k, _, hk⟩ | hx
    · rw [← hk]
      simp [Nat.sub_le]
    · rw [hx]
  | optC c =>
    intro inp x hx
    cases inp with
    | nil =>
      simp only [mrun, List.nil_append, List.mem_singleton] at hx
      rw [hx]
    | cons c2 rest =>
      simp only [mrun, List.mem_append, List.mem_singleton] at hx
      rcases hx with hx | hx
      · split at hx
        · simp only [List.mem_singleton] at hx
          rw [hx]
          simp only [List.length_cons]
          omega
        · simp at hx
      · rw [hx]
  | rep p n =>
    intro inp x hx
    simp only [mrun] at hx
    split at hx
    · simp only [List.mem_singleton] at hx
      rw [hx]
      simp [Nat.sub_le]
    · simp at hx
  | seq a b iha ihb =>
    intro inp x hx
    obtain ⟨rc, h1, rc2, h2, hx⟩ := (mem_seqComb _ _ _).mp hx
    rw [hx]
    exact le_trans (ihb rc.1 rc2 h2) (iha inp rc h1)
  | alt a b iha ihb =>
    intro inp x hx
    simp only [mrun, List.mem_append] at hx
    rcases hx with hx | hx
    · exact iha inp x hx
    · exact ihb inp x hx
  | eos =>
    intro inp x hx
    cases inp with
    | nil =>
      simp only [mrun, List.mem_singleton] at hx
      rw [hx]
    | cons c rest =>
      cases rest with
      | nil =>
        simp only [mrun] at hx
        split at hx
        · simp only [List.mem_singleton] at hx
          rw [hx]
        · simp at hx
      | cons c2 rest2 => simp [mrun] at hx
  | grp n r ih =>
    intro inp x hx
    simp only [mrun, List.mem_map] at hx
    obtain ⟨rc, h1, hx⟩ := hx
    rw [← hx]
    exact ih inp rc h1

/-- A regex without groups produces no captures. -/
theorem caps_nil_of_no_groups (r : RE) (hg : groupNums r = [])
    (inp : PyStr) (x : PyStr × Caps) (hx : x ∈ mrun r inp) : x.2 = [] := by
  cases hcaps : x.2 with
  | nil => rfl
  | cons e t =>
    have hmem : e.1 ∈ groupNums r :=
      mrun_caps_keys r inp x hx e (by rw [hcaps]; exact List.mem_cons_self e t)
    rw [hg] at hmem
    simp at hmem

/-- Decomposition of a concatenation match. -/
theorem mem_mrun_seq {a b : RE} {inp : PyStr} {x : PyStr × Caps}
    (hx : x ∈ mrun (.seq a b) inp) :
    ∃ rc, rc ∈ mrun a inp ∧ ∃ rc2, rc2 ∈ mrun b rc.1 ∧
      x = (rc2.1, rc.2 ++ rc2.2) :=
  (mem_seqComb _ _ _).mp hx

/-- Decomposition of a group match: the capture is the consumed prefix. -/
theorem mem_mrun_grp {n : Nat} {r : RE} {inp : PyStr} {x : PyStr × Caps}
    (hx : x ∈ mrun (.grp n r) inp) :
    ∃ rc, rc ∈ mrun r inp ∧
      x = (rc.1, rc.2 ++ [(n, inp.take (inp.length - rc.1.length))]) := by
  simp only [mrun, List.mem_map] at hx
  obtain ⟨rc, h1, hx⟩ := hx
  exact ⟨rc, h1, hx.symm⟩

/-- Decomposition of a literal match. -/
theorem mem_mrun_lit {s inp : PyStr} {x : PyStr × Caps}
    (hx : x ∈ mrun (.lit s) inp) :
    startsWithList s inp = true ∧ x = (inp.drop s.length, []) := by
  simp only [mrun] at hx
  split at hx
  · rename_i hs
    simp only [List.mem_singleton] at hx
    exact ⟨hs, hx⟩
  · simp at hx

/-- The unit sub-pattern `(mgs?/dl)` consumes at least two characters. -/
theorem mgUnit_consumed (inp : PyStr) (x : PyStr × Caps)
    (hx : x ∈ mrun mgUnitRE inp) : x.1.length + 2 ≤ inp.length := by
  obtain ⟨rc, h1, rc2, h2, hx⟩ := mem_mrun_seq hx
  obtain ⟨hs, hrc⟩ := mem_mrun_lit h1
  have hml : ("mg".data).length = 2 := rfl
  have hlen : 2 ≤ inp.length := by
    have := startsWithList_length _ _ hs
    omega
  have hrlen : rc.1.length = inp.length - 2 := by
    rw [hrc]
    simp only [List.length_drop, hml]
  have hb : rc2.1.length ≤ rc.1.length := mrun_rem_len _ _ _ h2
  rw [hx]
  simp only
  omega

/-- A prefix of positive requested length of a nonempty list is
nonempty. -/
theorem take_ne_nil_of_pos (l : PyStr) (k : Nat) (hk : 0 < k)
    (hl : 0 < l.length) : l.take k ≠ [] := by
  cases l with
  | nil => simp at hl
  | cons c t =>
    cases k with
    | zero => omega
    | succ k2 => simp [List.take]

/-- `capLookup` misses when no entry has the key. -/
theorem capLookup_none (caps : Caps) (n : Nat)
    (h : ∀ e ∈ caps, e.1 ≠ n) : capLookup caps n = none := by
  induction caps with
  | nil => rfl
  | cons e t ih =>
    obtain ⟨m, s⟩ := e
    simp only [capLookup]
    rw [if_neg (h (m, s) (List.mem_cons_self _ _))]
    exact ih (fun e2 he2 => h e2 (List.mem_cons_of_mem _ he2))

/-- `capLookup` skips a block of entries with other keys. -/
theorem capLookup_append_right (a b : Caps) (n : Nat)
    (h : ∀ e ∈ a, e.1 ≠ n) : capLookup (a ++ b) n = capLookup b n := by
  induction a with
  | nil => rfl
  | cons e t ih =>
    obtain ⟨m, s⟩ := e
    simp only [List.cons_append, capLookup]
    rw [if_neg (h (m, s) (List.mem_cons_self _ _))]
    exact ih (fun e2 he2 => h e2 (List.mem_cons_of_mem _ he2))

/-- A successful search comes from a successful match at some suffix. -/
theorem research_mem (r : RE) :
    ∀ (inp : PyStr) (caps : Caps), research r inp = some caps →
      ∃ inp2 rem, (rem, caps) ∈ mrun r inp2 := by
  intro inp
  induction inp with
  | nil =>
    intro caps h
    simp only [research] at h
    split at h
    · rename_i rc t heq
      injection h with h2
      exact ⟨[], rc.1, by rw [heq, ← h2]; exact List.mem_cons_self rc t⟩
    · exact absurd h (by simp)
  | cons c rest ih =>
    intro caps h
    simp only [research] at h
    split at h
    · rename_i rc t heq
      injection h with h2
      exact ⟨c :: rest, rc.1, by rw [heq, ← h2]; exact List.mem_cons_self rc t⟩
    · exact ih caps h

/-- A match of a unit-bearing lab pattern always binds group 2 to a
nonempty unit string. -/
theorem mgLab_unit (label text : PyStr) (caps : Caps)
    (h : research (mgLabRE label) text = some caps) :
    ∃ u, capLookup caps 2 = some u ∧ u ≠ [] := by
  obtain ⟨inp2, rem, hmem⟩ := research_mem _ _ _ h
  obtain ⟨rc0, h0, rcA, hA, hx0⟩ := mem_mrun_seq hmem
  obtain ⟨rc1, h1, rcB, hB, hxA⟩ := mem_mrun_seq hA
  obtain ⟨rc2, h2, rcC, hC, hxB⟩ := mem_mrun_seq hB
  obtain ⟨rc3, h3, rcD, hD, hxC⟩ := mem_mrun_seq hC
  obtain ⟨rc4, h4, hxD⟩ := mem_mrun_grp hD
  have hcaps : caps = rc0.2 ++ rcA.2 := congrArg Prod.snd hx0
  have hA2 : rcA.2 = rc1.2 ++ rcB.2 := congrArg Prod.snd hxA
  have hB2 : rcB.2 = rc2.2 ++ rcC.2 := congrArg Prod.snd hxB
  have hC2 : rcC.2 = rc3.2 ++ rcD.2 := congrArg Prod.snd hxC
  have hD2 : rcD.2 = rc4.2 ++ [(2, rc3.1.take (rc3.1.length - rc4.1.length))] :=
    congrArg Prod.snd hxD
  have h0n : rc0.2 = [] := caps_nil_of_no_groups (.lit label) rfl inp2 rc0 h0
  have h1n : rc1.2 = [] :=
    caps_nil_of_no_groups (.plusG isColonSpace) rfl rc0.1 rc1 h1
  have h3n : rc3.2 = [] := caps_nil_of_no_groups (.starG isPySpace) rfl rc2.1 rc3 h3
  have h4n : rc4.2 = [] := caps_nil_of_no_groups mgUnitRE rfl rc3.1 rc4 h4
  have hkey2 : ∀ e ∈ rc2.2, e.1 ≠ 2 := by
    intro e he
    have := mrun_caps_keys _ _ _ h2 e he
    simp only [groupNums, List.mem_singleton] at this
    omega
  refine ⟨rc3.1.take (rc3.1.length - rc4.1.length), ?_, ?_⟩
  · rw [hcaps, hA2, hB2, hC2, hD2, h0n, h1n, h3n, h4n]
    simp only [List.nil_append, List.append_nil]
    rw [capLookup_append_right _ _ _ hkey2]
    rfl
  · have hcons := mgUnit_consumed rc3.1 rc4 h4
    exact take_ne_nil_of_pos _ _ (by omega) (by omega)

/-- A match of a ratio lab pattern binds no group 2. -/
theorem ratioLab_nogrp2 (label text : PyStr) (caps : Caps)
    (h : research (ratioLabRE label) text = some caps) :
    capLookup caps 2 = none := by
  obtain ⟨inp2, rem, hmem⟩ := research_mem _ _ _ h
  apply capLookup_none
  intro e he
  have hme := mrun_caps_keys _ _ _ hmem e he
  simp only [ratioLabRE, groupNums, List.nil_append, List.append_nil,
    List.mem_cons, List.not_mem_nil, or_false] at hme
  omega

/-! ### Pipeline lemmas and claims C1, C2, C3, C4, C7 -/

/-- Projecting the Observation resources back out of a mapped entry
list. -/
theorem filterMap_obs (l : List ObsR) :
    List.filterMap (fun r => match r with | Resource.obs o => some o | _ => none)
      (l.map Resource.obs) = l := by
  induction l with
  | nil => rfl
  | cons o t ih => simp [List.filterMap_cons, ih]

/-- The observations of an assembled bundle are exactly the built list. -/
theorem obsOf_mk (p : PatientR) (r0 : ReportR) (l : List ObsR) :
    obsOf ⟨.pat p :: .rep r0 :: l.map .obs⟩ = l := by
  simp only [obsOf, List.filterMap_cons]
  exact filterMap_obs l

/-- Inversion of a successful pipeline run: the bundle is the patient,
the report, then the built observations. -/
theorem extract_ok_entry (ny : Int) (nd : String) (text : PyStr) (b : BundleR)
    (h : extract_fhir_bundle_regex ny nd text = .ok b) :
    ∃ l, buildObservations (reportDateOf nd text) labPatterns text 1 = .ok l ∧
      b.entry = .pat ⟨patientNameOf text, genderOf text, birthDateOf ny text⟩
        :: .rep ⟨labNameOf text, reportDateOf nd text⟩ :: l.map .obs := by
  unfold extract_fhir_bundle_regex at h
  cases hb : buildObservations (reportDateOf nd text) labPatterns text 1 with
  | error e =>
    rw [hb] at h
    exact absurd h (by simp)
  | ok l =>
    rw [hb] at h
    injection h with h2
    exact ⟨l, rfl, by rw [← h2]⟩

/-- When no lab pattern matches, the observation loop yields the empty
list. -/
theorem buildObs_none :
    ∀ (ps : List LabPattern) (text : PyStr) (c : Nat) (rd : String),
      (∀ p ∈ ps, research p.re text = none) →
      buildObservations rd ps text c = .ok [] := by
  intro ps
  induction ps with
  | nil => intro text c rd _; rfl
  | cons p pt ih =>
    intro text c rd h
    simp only [buildObservations]
    rw [h p (List.mem_cons_self p pt)]
    exact ih text c rd (fun q hq => h q (List.mem_cons_of_mem p hq))

/-- The heart of claim C2: a completed observation loop starting at
counter `c` emits identifiers `c, c+1, ...` in order, and one observation
per matching pattern, in pattern order. -/
theorem buildObs_spec :
    ∀ (ps : List LabPattern) (text : PyStr) (c : Nat) (rd : String) (l : List ObsR),
      buildObservations rd ps text c = .ok l →
      l.map (fun o => o.id) = (List.range l.length).map (fun i => obsIdent (c + i)) ∧
      l.map (fun o => o.loinc) =
        (ps.filter (fun p => (research p.re text).isSome)).map (fun p => p.loinc) ∧
      l.length = (ps.filter (fun p => (research p.re text).isSome)).length := by
  intro ps
  induction ps with
  | nil =>
    intro text c rd l h
    simp only [buildObservations] at h
    injection h with h2
    rw [← h2]
    simp [List.filter]
  | cons p pt ih =>
    intro text c rd l h
    simp only [buildObservations] at h
    cases hre : research p.re text with
    | none =>
      simp only [hre] at h
      obtain ⟨hid, hlc, hlen⟩ := ih text c rd l h
      refine ⟨hid, ?_, ?_⟩
      · rw [hlc]
        simp [List.filter_cons, hre]
      · rw [hlen]
        simp [List.filter_cons, hre]
    | some caps =>
      simp only [hre] at h
      cases hpf : pyFloat ((capLookup caps 1).getD []) with
      | none =>
        simp [hpf] at h
      | some v =>
        simp only [hpf] at h
        cases hrec : buildObservations rd pt text (c + 1) with
        | error e =>
          simp [hrec] at h
        | ok rest =>
          simp only [hrec] at h
          injection h with h2
          obtain ⟨hid, hlc, hlen⟩ := ih text (c + 1) rd rest hrec
          rw [← h2]
          refine ⟨?_, ?_, ?_⟩
          · simp only [List.map_cons, List.length_cons]
            rw [hid, List.range_succ_eq_map, List.map_cons, List.map_map]
            refine congrArg₂ List.cons (by rw [Nat.add_zero]) ?_
            apply List.map_congr_left
            intro i _
            simp only [Function.comp_apply]
            rw [show c + Nat.succ i = c + 1 + i from by omega]
          · simp only [List.map_cons]
            rw [hlc]
            simp [List.filter_cons, hre]
          · simp only [List.length_cons]
            rw [hlen]
            simp [List.filter_cons, hre]

/-- Every observation a completed loop over well-formed patterns emits
obeys the ratio/unit discipline. -/
theorem buildObs_quant :
    ∀ (ps : List LabPattern), (∀ p ∈ ps, PatOK p) →
      ∀ (text : PyStr) (c : Nat) (rd : String) (l : List ObsR),
        buildObservations rd ps text c = .ok l → ∀ o ∈ l, QuantOK o := by
  intro ps
  induction ps with
  | nil =>
    intro _ text c rd l h o ho
    simp only [buildObservations] at h
    injection h with h2
    rw [← h2] at ho
    simp at ho
  | cons p pt ih =>
    intro hok text c rd l h o ho
    simp only [buildObservations] at h
    cases hre : research p.re text with
    | none =>
      simp only [hre] at h
      exact ih (fun q hq => hok q (List.mem_cons_of_mem p hq)) text c rd l h o ho
    | some caps =>
      simp only [hre] at h
      cases hpf : pyFloat ((capLookup caps 1).getD []) with
      | none =>
        simp [hpf] at h
      | some v =>
        simp only [hpf] at h
        cases hrec : buildObservations rd pt text (c + 1) with
        | error e =>
          simp [hrec] at h
        | ok rest =>
          simp only [hrec] at h
          injection h with h2
          rw [← h2] at ho
          rcases List.mem_cons.mp ho with rfl | ho2
          · have hp := hok p (List.mem_cons_self p pt) text caps hre
            cases hr : ratioDisplay p.display with
            | true =>
              have hunit : (capLookup caps 2).getD [] = [] := hp.1 hr
              constructor
              · intro _
                simp [hunit, hr]
              · intro hfalse
                simp only at hfalse
                rw [hr] at hfalse
                exact Bool.noConfusion hfalse
            | false =>
              have hunit : (capLookup caps 2).getD [] ≠ [] := hp.2 hr
              constructor
              · intro htrue
                simp only at htrue
                rw [hr] at htrue
                exact Bool.noConfusion htrue
              · intro _
                refine ⟨String.mk ((capLookup caps 2).getD []), ?_, ?_, ?_, ?_⟩
                · simp [hunit, hr]
                · intro hmk
                  apply hunit
                  have := congrArg String.data hmk
                  simpa using this
                · simp [hunit, hr]
                · refine ⟨(if containsSub "mg".data ((capLookup caps 2).getD []) = true
                      then "mg/dL" else String.mk ((capLookup caps 2).getD [])), ?_⟩
                  simp [hunit, hr]
          · exact ih (fun q hq => hok q (List.mem_cons_of_mem p hq))
              text (c + 1) rd rest hrec o ho2

/-- The five unit-bearing pattern entries are well-formed. -/
theorem patOK_mglab (label : PyStr) (loinc display : String)
    (hdisp : ratioDisplay display = false) :
    PatOK ⟨mgLabRE label, loinc, display⟩ := by
  intro text caps h
  constructor
  · intro hr
    rw [hdisp] at hr
    exact Bool.noConfusion hr
  · intro _
    obtain ⟨u, hu, hne⟩ := mgLab_unit label text caps h
    simp [hu, hne]

/-- The two ratio pattern entries are well-formed. -/
theorem patOK_ratioEntry (label : PyStr) (loinc display : String)
    (hdisp : ratioDisplay display = true) :
    PatOK ⟨ratioLabRE label, loinc, display⟩ := by
  intro text caps h
  constructor
  · intro _
    rw [ratioLab_nogrp2 label text caps h]
    rfl
  · intro hr
    rw [hdisp] at hr
    exact Bool.noConfusion hr

/-- Every entry of the pattern table is well-formed. -/
theorem labPatterns_ok : ∀ p ∈ labPatterns, PatOK p := by
  intro p hp
  simp only [labPatterns, List.mem_cons, List.not_mem_nil, or_false] at hp
  rcases hp with rfl | rfl | rfl | rfl | rfl | rfl | rfl
  · exact patOK_mglab _ _ _ (by decide)
  · exact patOK_mglab _ _ _ (by decide)
  · exact patOK_mglab _ _ _ (by decide)
  · exact patOK_mglab _ _ _ (by decide)
  · exact patOK_mglab _ _ _ (by decide)
  · exact patOK_ratioEntry _ _ _ (by decide)
  · exact patOK_ratioEntry _ _ _ (by decide)

/-- Claim C7: every emitted Measurement whose display name contains
"ratio" (case-insensitively) carries a bare numeric value with no unit,
system or code fields, and every other emitted Measurement carries the
matched nonempty unit together with the fixed unit-terminology system
and a unit code. -/
theorem c7_ratio_unit_handling (nowYear : Int) (nowDate : String) (text : PyStr)
    (b : BundleR) (h : extract_fhir_bundle_regex nowYear nowDate text = .ok b) :
    ∀ o ∈ obsOf b, QuantOK o := by
  obtain ⟨l, hb, hentry⟩ := extract_ok_entry _ _ _ _ h
  have hobs : obsOf b = l := by
    have : b = ⟨b.entry⟩ := rfl
    rw [show obsOf b = obsOf ⟨b.entry⟩ from rfl, hentry]
    exact obsOf_mk _ _ l
  intro o ho
  rw [hobs] at ho
  exact buildObs_quant labPatterns labPatterns_ok text 1 _ l hb o ho

/-- Witness for C7 at the claim's concrete scenario: the document
`"Cholesterol/HDL Ratio: 3.5"` yields a single ratio Measurement with a
bare value 3.5 and no unit/system/code fields. -/
theorem c7_ratio_unit_handling_witness :
    (⟨"obs-001", "9830-1",
      "Cholesterol.total/Cholesterol in HDL [Mass Ratio] in Serum or Plasma",
      "2026-10-12", ⟨mkRat 7 2, none, none, none⟩⟩ : ObsR).valueQuantity.unit = none ∧
    (⟨"obs-001", "9830-1",
      "Cholesterol.total/Cholesterol in HDL [Mass Ratio] in Serum or Plasma",
      "2026-10-12", ⟨mkRat 7 2, none, none, none⟩⟩ : ObsR).valueQuantity.system = none ∧
    (⟨"obs-001", "9830-1",
      "Cholesterol.total/Cholesterol in HDL [Mass Ratio] in Serum or Plasma",
      "2026-10-12", ⟨mkRat 7 2, none, none, none⟩⟩ : ObsR).valueQuantity.ucode = none :=
  (c7_ratio_unit_handling 2026 "2026-10-12" "Cholesterol/HDL Ratio: 3.5".data
    ratioDocBundle (by decide) _ (List.mem_singleton.mpr rfl)).1 (by decide)

/-- Claim C2 (amended): on every run that completes (no observation value
fails float parsing), each matching pattern yields exactly one
Measurement, in pattern order, and the emitted observation identifiers
are exactly the zero-padded sequence obs-001, obs-002, ... with no gaps
and no repeats. -/
theorem c2_obs_ids_sequence (nowYear : Int) (nowDate : String) (text : PyStr)
    (b : BundleR) (h : extract_fhir_bundle_regex nowYear nowDate text = .ok b) :
    (obsOf b).map (fun o => o.id) =
      (List.range (obsOf b).length).map (fun i => obsIdent (1 + i)) ∧
    (obsOf b).map (fun o => o.loinc) =
      (labPatterns.filter (fun p => (research p.re text).isSome)).map
        (fun p => p.loinc) ∧
    (obsOf b).length =
      (labPatterns.filter (fun p => (research p.re text).isSome)).length := by
  obtain ⟨l, hb, hentry⟩ := extract_ok_entry _ _ _ _ h
  have hobs : obsOf b = l := by
    rw [show obsOf b = obsOf ⟨b.entry⟩ from rfl, hentry]
    exact obsOf_mk _ _ l
  rw [hobs]
  exact buildObs_spec labPatterns text 1 (reportDateOf nowDate text) l hb

/-- Witness for C2 (amended) at the document
`"HDL Cholesterol: 50 mg/dl"`: one Measurement, identifier `obs-001`. -/
theorem c2_obs_ids_sequence_witness :
    (obsOf hdlDocBundle).map (fun o => o.id) =
      (List.range (obsOf hdlDocBundle).length).map (fun i => obsIdent (1 + i)) :=
  (c2_obs_ids_sequence 2026 "2026-10-12" "HDL Cholesterol: 50 mg/dl".data
    hdlDocBundle (by decide)).1

/-- Counterexample to C2 as stated: in the document
`"Serum Total Cholesterol: 100 mg/dl Serum Triglycerides: . mg/dl"` the
cholesterol field is present and successfully normalized (value 100.0),
yet the pipeline emits no Measurement at all: the triglycerides capture
`"."` makes `float` raise `ValueError`, aborting the whole run. -/
theorem c2_parse_failure_aborts :
    extract_fhir_bundle_regex 2026 "2026-10-12"
      "Serum Total Cholesterol: 100 mg/dl Serum Triglycerides: . mg/dl".data =
      .error .valueError ∧
    (research (mgLabRE "Serum Total Cholesterol".data)
      "Serum Total Cholesterol: 100 mg/dl Serum Triglycerides: . mg/dl".data).isSome
      = true ∧
    pyFloat ((capLookup ((research (mgLabRE "Serum Total Cholesterol".data)
      "Serum Total Cholesterol: 100 mg/dl Serum Triglycerides: . mg/dl".data).getD
        []) 1).getD []) = some 100 :=
  ⟨by decide, by decide, by decide⟩

/-- Claim C3 (amended): every run that completes emits a Bundle whose
entry list is exactly one Subject first, one Report second, then the
Measurements; and when no field is recognized at all, the Subject
defaults to name "Unknown" with gender "unknown" (and no birth date),
the Report defaults to the generic facility name, and there are zero
Measurements. -/
theorem c3_bundle_shape (nowYear : Int) (nowDate : String) (text : PyStr)
    (b : BundleR) (h : extract_fhir_bundle_regex nowYear nowDate text = .ok b) :
    (∃ (p : PatientR) (r : ReportR) (os : List ObsR),
      b.entry = .pat p :: .rep r :: os.map .obs) ∧
    ((research patientNameRE text = none ∧ research ageSexRE text = none ∧
      research labNameRE text = none ∧
      (∀ lp ∈ labPatterns, research lp.re text = none)) →
      b.entry = [.pat ⟨"Unknown", "unknown", none⟩,
        .rep ⟨"Clinical Laboratory", reportDateOf nowDate text⟩]) := by
  obtain ⟨l, hb, hentry⟩ := extract_ok_entry _ _ _ _ h
  constructor
  · exact ⟨_, _, l, hentry⟩
  · rintro ⟨hp, ha, hl, hobs⟩
    have hnil : buildObservations (reportDateOf nowDate text) labPatterns text 1 =
        .ok [] := buildObs_none labPatterns text 1 _ hobs
    rw [hb] at hnil
    injection hnil with h2
    rw [hentry, h2]
    simp [patientNameOf, genderOf, birthDateOf, labNameOf, hp, ha, hl]

/-- Witness for C3 (amended) at the empty document: default Subject,
default Report, zero Measurements. -/
theorem c3_bundle_shape_witness :
    emptyDocBundle.entry = [.pat ⟨"Unknown", "unknown", none⟩,
      .rep ⟨"Clinical Laboratory", reportDateOf "2026-10-12" []⟩] :=
  (c3_bundle_shape 2026 "2026-10-12" [] emptyDocBundle (by decide)).2
    ⟨rfl, rfl, rfl, by decide⟩

/-- Counterexample to C3 as stated: on the document
`"Serum Total Cholesterol: . mg/dl"` the pipeline does not emit a Bundle
at all — `float(".")` raises `ValueError` and the process dies. -/
theorem c3_missing_bundle_on_parse_error :
    extract_fhir_bundle_regex 2026 "2026-10-12"
      "Serum Total Cholesterol: . mg/dl".data = .error .valueError := by decide

/-- Claim C1: the concrete scenario. The input
`"Patient Name: Jane Doe  Age/Sex: 45F\nSerum Total Cholesterol: 210 mg/dl\n"`
yields a Subject named "Jane Doe" with gender "female", and exactly one
Measurement, with value 210.0 and LOINC code 33747-0. (The bundle also
carries the derived birth date of 1981-01-01 for current year 2026 —
see claim C4.) -/
theorem c1_concrete_scenario :
    extract_fhir_bundle_regex 2026 "2026-10-12"
      "Patient Name: Jane Doe  Age/Sex: 45F\nSerum Total Cholesterol: 210 mg/dl\n".data
      = .ok ⟨[.pat ⟨"Jane Doe", "female", some "1981-01-01"⟩,
          .rep ⟨"Clinical Laboratory", "2026-10-12"⟩,
          .obs ⟨"obs-001", "33747-0", "Cholesterol [Mass/volume] in Serum or Plasma",
            "2026-10-12", ⟨210, some "mg/dl", some uomSystem, some "mg/dL"⟩⟩]⟩ := by
  decide

/-- Claim C4 is a code bug: the spec (and the repository's own LLM prompt
in `src/fhir_llm.py`) forbids deriving a birth date from the age, but
`extract_fhir_bundle_regex` computes `birthDate = currentYear - age`
(January 1). At the failing input below, with current year 2026 and age
45, the emitted Subject carries the fabricated birth date 1981-01-01. -/
theorem c4_birthdate_derived :
    extract_fhir_bundle_regex 2026 "2026-10-12"
      "Patient Name: John Roe  Age/Sex: 45M\n".data =
      .ok ⟨[.pat ⟨"John Roe", "male", some "1981-01-01"⟩,
        .rep ⟨"Clinical Laboratory", "2026-10-12"⟩]⟩ := by decide

end MedRec
